import Mathlib

/-!
Verification of the OpenSY proof-of-work consensus core.

The C++ sources are shallowly embedded:
* `uint256` values are modelled as `Nat` (a `uint256` is null iff it equals 0);
* C++ `int` heights are modelled as `Int`, with `Int.tdiv` for the C++
  truncating integer division;
* C++ `bool` predicates become Lean `Bool` functions.

Definitions whose doc comment starts with `Modelled from the spec:` embed
parts of the repository whose implementation files are not available here
(only their headers, tests or callers are); those follow the specification
text.
-/

namespace OpenSY

/-- Proof-of-work algorithm enumeration, from `Consensus::Params::PowAlgorithm`
in `src/consensus/params.h`. -/
inductive PowAlgorithm where
  | SHA256D
  | RANDOMX
  | ARGON2ID
deriving DecidableEq, Repr

/-- The fields of `Consensus::Params` (`src/consensus/params.h`) consumed by the
PoW consensus core.  `uint256` limits are `Nat` (null = 0); heights and
intervals are C++ `int`, modelled as `Int`. -/
structure Params where
  powLimit : Nat
  powLimitRandomX : Nat
  powLimitArgon2 : Nat
  nRandomXForkHeight : Int
  nRandomXKeyBlockInterval : Int
  nArgon2EmergencyHeight : Int
  nArgon2MemoryCost : Nat
  nArgon2TimeCost : Nat
  nArgon2Parallelism : Nat
  nPowTargetSpacing : Int
  nPowTargetTimespan : Int
  fPowNoRetargeting : Bool
deriving Repr

/-- `Consensus::Params::IsArgon2EmergencyActive` (`src/consensus/params.h:180`):
`nArgon2EmergencyHeight >= 0 && height >= nArgon2EmergencyHeight`. -/
def Params.IsArgon2EmergencyActive (p : Params) (height : Int) : Bool :=
  decide (p.nArgon2EmergencyHeight ≥ 0) && decide (height ≥ p.nArgon2EmergencyHeight)

/-- `Consensus::Params::IsRandomXActive` (`src/consensus/params.h:173`):
`height >= nRandomXForkHeight && !IsArgon2EmergencyActive(height)`. -/
def Params.IsRandomXActive (p : Params) (height : Int) : Bool :=
  decide (height ≥ p.nRandomXForkHeight) && !(p.IsArgon2EmergencyActive height)

/-- `Consensus::Params::GetPowAlgorithm` (`src/consensus/params.h:196`). -/
def Params.GetPowAlgorithm (p : Params) (height : Int) : PowAlgorithm :=
  if p.IsArgon2EmergencyActive height then .ARGON2ID
  else if p.IsRandomXActive height then .RANDOMX
  else .SHA256D

/-- `Consensus::Params::GetActivePowLimit` (`src/consensus/params.h:208`); a
`uint256` is null iff its `Nat` model equals 0. -/
def Params.GetActivePowLimit (p : Params) (height : Int) : Nat :=
  match p.GetPowAlgorithm height with
  | .ARGON2ID => if p.powLimitArgon2 = 0 then p.powLimitRandomX else p.powLimitArgon2
  | .RANDOMX => if p.powLimitRandomX = 0 then p.powLimit else p.powLimitRandomX
  | .SHA256D => p.powLimit

/-- `Consensus::Params::GetRandomXPowLimit` (`src/consensus/params.h:222`):
the legacy accessor simply calls `GetActivePowLimit`. -/
def Params.GetRandomXPowLimit (p : Params) (height : Int) : Nat :=
  p.GetActivePowLimit height

/-- `Consensus::Params::GetRandomXKeyBlockHeight` (`src/consensus/params.h:238`):
`(height / interval) * interval - interval`, clamped below by 0; C++ `/` on
`int` truncates toward zero, hence `Int.tdiv`. -/
def Params.GetRandomXKeyBlockHeight (p : Params) (height : Int) : Int :=
  let keyHeight :=
    (Int.tdiv height p.nRandomXKeyBlockInterval) * p.nRandomXKeyBlockInterval
      - p.nRandomXKeyBlockInterval
  if keyHeight ≥ 0 then keyHeight else 0

/-- A concrete parameter bundle used by several witnesses: RandomX forks at
height 1 and the Argon2 emergency activates at height 100, mirroring the
spec's "Emergency preemption" scenario. -/
def emergencyParams : Params where
  powLimit := 26959535291011309493156476344723991336010898738574164086137773096960
  powLimitRandomX := 0
  powLimitArgon2 := 0
  nRandomXForkHeight := 1
  nRandomXKeyBlockInterval := 32
  nArgon2EmergencyHeight := 100
  nArgon2MemoryCost := 2097152
  nArgon2TimeCost := 1
  nArgon2Parallelism := 1
  nPowTargetSpacing := 600
  nPowTargetTimespan := 1209600
  fPowNoRetargeting := false

/-- C1: for every height `H ≥ 0` the selector returns `ARGON2ID` when
`emergency_height ≥ 0 ∧ H ≥ emergency_height`, else `RANDOMX` (MHP) when
`H ≥ mhp_fork_height`, else `SHA256D`; and with `mhp_fork_height = 1`,
`emergency_height = 100` it returns MHP at 99 and `ARGON2ID` at 100 and 200. -/
theorem pow_algorithm_selector_spec (P : Params) (H : Int) (_hH : 0 ≤ H) :
    P.GetPowAlgorithm H =
      (if P.nArgon2EmergencyHeight ≥ 0 ∧ H ≥ P.nArgon2EmergencyHeight then
        PowAlgorithm.ARGON2ID
      else if H ≥ P.nRandomXForkHeight then PowAlgorithm.RANDOMX
      else PowAlgorithm.SHA256D) ∧
    emergencyParams.GetPowAlgorithm 99 = PowAlgorithm.RANDOMX ∧
    emergencyParams.GetPowAlgorithm 100 = PowAlgorithm.ARGON2ID ∧
    emergencyParams.GetPowAlgorithm 200 = PowAlgorithm.ARGON2ID := by
  refine ⟨?_, by decide, by decide, by decide⟩
  simp only [Params.GetPowAlgorithm, Params.IsRandomXActive, Params.IsArgon2EmergencyActive]
  by_cases hemer : P.nArgon2EmergencyHeight ≥ 0 ∧ H ≥ P.nArgon2EmergencyHeight
  · simp [hemer.1, hemer.2]
  · by_cases hfork : H ≥ P.nRandomXForkHeight <;>
      rcases Decidable.not_and_iff_or_not.mp hemer with h | h <;>
      simp [h, hfork]

/-- C1 witness: the selector theorem applied at a concrete height. -/
theorem pow_algorithm_selector_spec_witness :
    emergencyParams.GetPowAlgorithm 99 = PowAlgorithm.RANDOMX :=
  (pow_algorithm_selector_spec emergencyParams 99 (by decide)).2.1

/-- C9: the legacy accessor `GetRandomXPowLimit` agrees with
`GetActivePowLimit` at every height: the two functions are equal. -/
theorem randomx_pow_limit_refines_active_limit (P : Params) (H : Int) :
    P.GetRandomXPowLimit H = P.GetActivePowLimit H := rfl

/-- C10: for every negative `nArgon2EmergencyHeight` and height `H ≥ 0`,
`IsArgon2EmergencyActive` is false and the selector never picks `ARGON2ID`. -/
theorem negative_emergency_height_never_active (P : Params) (H : Int)
    (hneg : P.nArgon2EmergencyHeight < 0) (_hH : 0 ≤ H) :
    P.IsArgon2EmergencyActive H = false ∧
    P.GetPowAlgorithm H ≠ PowAlgorithm.ARGON2ID := by
  have hact : P.IsArgon2EmergencyActive H = false := by
    simp [Params.IsArgon2EmergencyActive, hneg, not_le.mpr hneg]
  refine ⟨hact, ?_⟩
  simp only [Params.GetPowAlgorithm, hact]
  by_cases hrx : P.IsRandomXActive H = true <;> simp [hrx]

/-- C10 witness: negative emergency height at a concrete parameter bundle. -/
theorem negative_emergency_height_never_active_witness :
    ({ emergencyParams with nArgon2EmergencyHeight := -1 } :
        Params).IsArgon2EmergencyActive 1000000 = false :=
  (negative_emergency_height_never_active
    { emergencyParams with nArgon2EmergencyHeight := -1 } 1000000
    (by decide) (by decide)).1

/-- Parameters exhibiting the hole in the fallback chain of
`GetActivePowLimit`: the emergency is active from height 0 while both
`powLimitRandomX` and `powLimitArgon2` are null. -/
def doubleNullLimitParams : Params :=
  { emergencyParams with nArgon2EmergencyHeight := 0 }

/-- C3 counterexample: with the emergency active and both `argon2_limit` and
`mhp_limit` null, `GetActivePowLimit` returns the null `mhp_limit` even though
`sha256d_limit` is non-null — the fallback chain does not reach
`sha256d_limit` from the `ARGON2ID` case, so `active_limit` is not always
non-null. -/
theorem active_limit_double_null_cex :
    doubleNullLimitParams.powLimit ≠ 0 ∧
    doubleNullLimitParams.powLimitArgon2 = 0 ∧
    doubleNullLimitParams.powLimitRandomX = 0 ∧
    doubleNullLimitParams.GetActivePowLimit 0 = 0 := by
  refine ⟨?_, rfl, rfl, rfl⟩
  decide

/-- C3 (amended): `active_limit` applies a single-level fallback — in the
`ARGON2ID` case a null `argon2_limit` falls back to `mhp_limit` (even when
`mhp_limit` is itself null), and in the `RANDOMX` case a null `mhp_limit`
falls back to `sha256d_limit`.  Consequently, when `sha256d_limit` is
non-null, `active_limit(H)` is non-null whenever the selected algorithm is
not `ARGON2ID`, and when it is `ARGON2ID`, `active_limit(H)` is non-null iff
`argon2_limit` or `mhp_limit` is non-null. -/
theorem active_limit_fallback_chain (P : Params) (H : Int) (hsha : P.powLimit ≠ 0) :
    P.GetActivePowLimit H =
      (match P.GetPowAlgorithm H with
      | .ARGON2ID => if P.powLimitArgon2 = 0 then P.powLimitRandomX else P.powLimitArgon2
      | .RANDOMX => if P.powLimitRandomX = 0 then P.powLimit else P.powLimitRandomX
      | .SHA256D => P.powLimit) ∧
    (P.GetPowAlgorithm H ≠ PowAlgorithm.ARGON2ID → P.GetActivePowLimit H ≠ 0) ∧
    (P.GetPowAlgorithm H = PowAlgorithm.ARGON2ID →
      (P.GetActivePowLimit H ≠ 0 ↔ (P.powLimitArgon2 ≠ 0 ∨ P.powLimitRandomX ≠ 0))) := by
  refine ⟨rfl, ?_, ?_⟩
  · intro halgo
    unfold Params.GetActivePowLimit
    match halg : P.GetPowAlgorithm H with
    | .ARGON2ID => exact absurd halg halgo
    | .RANDOMX =>
      by_cases hrx : P.powLimitRandomX = 0 <;> simp [hrx, hsha]
    | .SHA256D => simpa using hsha
  · intro halgo
    unfold Params.GetActivePowLimit
    rw [halgo]
    by_cases ha : P.powLimitArgon2 = 0 <;> simp [ha]

/-- C3 witness: the fallback-chain theorem applied to concrete parameters with
a null `mhp_limit` at a pre-fork height (SHA256d is selected, so the active
limit is the non-null `sha256d_limit`). -/
theorem active_limit_fallback_chain_witness :
    emergencyParams.GetActivePowLimit 0 ≠ 0 :=
  (active_limit_fallback_chain emergencyParams 0 (by decide)).2.1 (by decide)

/-- C5: with `H ≥ 0` and a positive key interval `i`,
`GetRandomXKeyBlockHeight` equals `max 0 ((H / i) * i - i)` (C++ truncating
division), lies in `[0, H]`, is a multiple of `i` (or 0), and collapses to 0
for every `H ∈ [0, 2 * i - 1]`. -/
theorem key_block_height_spec (P : Params) (H : Int) (hH : 0 ≤ H)
    (hi : 0 < P.nRandomXKeyBlockInterval) :
    P.GetRandomXKeyBlockHeight H =
      max 0 ((Int.tdiv H P.nRandomXKeyBlockInterval) * P.nRandomXKeyBlockInterval
        - P.nRandomXKeyBlockInterval) ∧
    0 ≤ P.GetRandomXKeyBlockHeight H ∧
    P.GetRandomXKeyBlockHeight H ≤ H ∧
    P.nRandomXKeyBlockInterval ∣ P.GetRandomXKeyBlockHeight H ∧
    (H ≤ 2 * P.nRandomXKeyBlockInterval - 1 → P.GetRandomXKeyBlockHeight H = 0) := by
  set i := P.nRandomXKeyBlockInterval with hidef
  set q := Int.tdiv H i with hq
  -- Facts about the truncating quotient of the nonnegative height.
  obtain ⟨m, rfl⟩ := Int.eq_ofNat_of_zero_le hH
  obtain ⟨n, hn⟩ := Int.eq_ofNat_of_zero_le hi.le
  have hn0 : 0 < n := by exact_mod_cast hn ▸ hi
  have hqnat : q = ((m / n : Nat) : Int) := by rw [hq, hn]; rfl
  have hq1 : q * i ≤ (m : Int) := by
    rw [hqnat, hn]
    exact_mod_cast Nat.div_mul_le_self m n
  have hq2 : (m : Int) < q * i + i := by
    rw [hqnat, hn]
    have hlt : m % n < n := Nat.mod_lt m hn0
    have : m < m / n * n + n := by
      calc m = n * (m / n) + m % n := (Nat.div_add_mod m n).symm
        _ < n * (m / n) + n := Nat.add_lt_add_left hlt _
        _ = m / n * n + n := by rw [Nat.mul_comm]
    exact_mod_cast this
  have hmax : P.GetRandomXKeyBlockHeight (m : Int) = max 0 (q * i - i) := by
    unfold Params.GetRandomXKeyBlockHeight
    rw [← hidef, ← hq]
    rcases le_or_lt 0 (q * i - i) with hnn | hneg
    · rw [if_pos hnn, max_eq_right hnn]
    · rw [if_neg (not_le.mpr hneg), max_eq_left hneg.le]
  refine ⟨hmax, ?_, ?_, ?_, ?_⟩
  · rw [hmax]; exact le_max_left 0 _
  · rw [hmax]
    rcases max_cases 0 (q * i - i) with ⟨heq, _⟩ | ⟨heq, _⟩ <;> rw [heq]
    · exact hH
    · have : (0 : Int) < i := hi
      linarith
  · rw [hmax]
    rcases max_cases 0 (q * i - i) with ⟨heq, _⟩ | ⟨heq, _⟩ <;> rw [heq]
    · exact dvd_zero i
    · exact dvd_sub (dvd_mul_left i q) (dvd_refl i)
  · intro hsmall
    rw [hmax]
    have hq3 : q * i < 2 * i := by linarith
    have hqlt : q < 2 := lt_of_mul_lt_mul_right (by linarith) hi.le
    have : q * i ≤ 1 * i := mul_le_mul_of_nonneg_right (by omega) hi.le
    have : q * i - i ≤ 0 := by linarith
    exact max_eq_left this

/-- C5 witness: the key-height theorem evaluated at height 99 with interval 32
(key height is 64). -/
theorem key_block_height_spec_witness :
    emergencyParams.GetRandomXKeyBlockHeight 99 = 64 ∧
    (32 : Int) ∣ emergencyParams.GetRandomXKeyBlockHeight 99 := by
  have h := key_block_height_spec emergencyParams 99 (by decide) (by decide)
  exact ⟨by decide, h.2.2.2.1⟩

/-- A transaction output point (`COutPoint`): txid and output index. -/
structure COutPoint where
  hash : Nat
  n : Nat
deriving DecidableEq, Repr

/-- A UTXO (`Coin`): value in satoshis, creation height, coinbase flag. -/
structure Coin where
  value : Int
  height : Int
  isCoinBase : Bool
deriving DecidableEq, Repr

/-- A UTXO view, modelled as an association list from outpoints to coins. -/
def UtxoView : Type := List (COutPoint × Coin)

/-- Fetch a coin from the view (`view.AccessCoin`); `none` covers both absent
and already-spent coins. -/
def lookupCoin (view : UtxoView) (o : COutPoint) : Option Coin :=
  (List.find? (fun pc => pc.1 = o) view).map (fun pc => pc.2)

/-- The parts of a transaction consumed by the input checker: input prevouts
and output values. -/
structure Tx where
  vin : List COutPoint
  vout : List Int
deriving DecidableEq, Repr

/-- One COIN in satoshis. -/
def COIN : Int := 100000000

/-- Modelled from the spec: `MAX_MONEY`, the finite positive money cap
(`amount.h` is not among the provided sources; the standard 21 million COIN
cap used by the tests). -/
def MAX_MONEY : Int := 21000000 * COIN

/-- Modelled from the spec: `COINBASE_MATURITY` is exactly 100
(`consensus/consensus.h` is not among the provided sources). -/
def COINBASE_MATURITY : Int := 100

/-- `MoneyRange(v)`: `0 <= v && v <= MAX_MONEY`. -/
def MoneyRange (v : Int) : Bool :=
  decide (0 ≤ v) && decide (v ≤ MAX_MONEY)

/-- Error kinds surfaced by the input checker (spec section 7). -/
inductive TxError where
  | missingInputs
  | prematureSpend
  | consensusViolation
deriving DecidableEq, Repr

/-- Modelled from the spec: the per-input loop of `Consensus::CheckTxInputs`
(`consensus/tx_verify.cpp` is not among the provided sources; spec section
4.7 steps 1-3).  For each input: absent coin is `MISSING_INPUTS`, an immature
coinbase is `PREMATURE_SPEND`, and a value or running-sum outside
`[0, MAX_MONEY]` is a consensus violation; otherwise the coin value joins the
accumulator. -/
def checkInputsLoop (view : UtxoView) (spendHeight : Int) :
    List COutPoint → Int → Except TxError Int
  | [], acc => .ok acc
  | o :: rest, acc =>
    match lookupCoin view o with
    | none => .error .missingInputs
    | some coin =>
      if coin.isCoinBase && decide (spendHeight - coin.height < COINBASE_MATURITY) then
        .error .prematureSpend
      else if !(MoneyRange coin.value && MoneyRange (acc + coin.value)) then
        .error .consensusViolation
      else checkInputsLoop view spendHeight rest (acc + coin.value)

/-- Sum of the outputs of a transaction (`tx.GetValueOut()`). -/
def txValueOut (tx : Tx) : Int := tx.vout.sum

/-- The value of the coin at an outpoint, 0 when absent (only meaningful when
every input is present). -/
def coinValue (view : UtxoView) (o : COutPoint) : Int :=
  match lookupCoin view o with
  | some c => c.value
  | none => 0

/-- Sum of the input values of a transaction against a view. -/
def txValueIn (view : UtxoView) (tx : Tx) : Int :=
  (tx.vin.map (coinValue view)).sum

/-- Modelled from the spec: `Consensus::CheckTxInputs`
(`consensus/tx_verify.cpp` is not among the provided sources; spec section
4.7 steps 4-6).  After the input loop: inputs below outputs or a fee outside
`[0, MAX_MONEY]` is a consensus violation, otherwise the fee is returned. -/
def CheckTxInputs (tx : Tx) (view : UtxoView) (spendHeight : Int) :
    Except TxError Int :=
  match checkInputsLoop view spendHeight tx.vin 0 with
  | .error e => .error e
  | .ok valueIn =>
    let valueOut := txValueOut tx
    if valueIn < valueOut then .error .consensusViolation
    else
      let txfee := valueIn - valueOut
      if !MoneyRange txfee then .error .consensusViolation
      else .ok txfee

/-- A view holds only well-formed coins: every stored value is in money range
(spec section 3 invariant on `Coin`). -/
def ViewWellFormed (view : UtxoView) : Prop :=
  ∀ o c, lookupCoin view o = some c → MoneyRange c.value = true

lemma moneyRange_iff {v : Int} : MoneyRange v = true ↔ 0 ≤ v ∧ v ≤ MAX_MONEY := by
  simp [MoneyRange]

lemma coinValue_nonneg {view : UtxoView} (hview : ViewWellFormed view)
    (o : COutPoint) : 0 ≤ coinValue view o := by
  unfold coinValue
  cases hlook : lookupCoin view o with
  | none => exact le_refl 0
  | some c => exact (moneyRange_iff.mp (hview o c hlook)).1

lemma sum_coinValue_nonneg {view : UtxoView} (hview : ViewWellFormed view)
    (ins : List COutPoint) : 0 ≤ (ins.map (coinValue view)).sum := by
  refine List.sum_nonneg ?_
  intro x hx
  obtain ⟨o, _, rfl⟩ := List.mem_map.mp hx
  exact coinValue_nonneg hview o

/-- Invariant lemma for the input loop: with a well-formed view and an
accumulator in money range, the loop succeeds exactly when every input is
present, every coinbase input is mature, and the accumulated input sum stays
within `MAX_MONEY`; on success it returns exactly the accumulated sum. -/
lemma checkInputsLoop_spec (view : UtxoView) (spendHeight : Int)
    (hview : ViewWellFormed view) (ins : List COutPoint) :
    ∀ acc : Int, 0 ≤ acc → acc ≤ MAX_MONEY →
      (((∃ v, checkInputsLoop view spendHeight ins acc = .ok v) ↔
        (∀ o ∈ ins, (lookupCoin view o).isSome) ∧
        (∀ o ∈ ins, ∀ c, lookupCoin view o = some c → c.isCoinBase = true →
          COINBASE_MATURITY ≤ spendHeight - c.height) ∧
        acc + (ins.map (coinValue view)).sum ≤ MAX_MONEY) ∧
      (∀ v, checkInputsLoop view spendHeight ins acc = .ok v →
        v = acc + (ins.map (coinValue view)).sum)) := by
  induction ins with
  | nil =>
    intro acc hacc0 hacc1
    refine ⟨?_, ?_⟩
    · simp only [checkInputsLoop, List.map_nil, List.sum_nil, add_zero]
      constructor
      · intro _
        exact ⟨by simp, by simp, hacc1⟩
      · intro _
        exact ⟨acc, rfl⟩
    · intro v hv
      simp only [checkInputsLoop] at hv
      cases hv
      simp
  | cons o rest ih =>
    intro acc hacc0 hacc1
    cases hlook : lookupCoin view o with
    | none =>
      simp only [checkInputsLoop, hlook]
      constructor
      · constructor
        · rintro ⟨v, hv⟩; cases hv
        · rintro ⟨hpres, -, -⟩
          have := hpres o (List.mem_cons_self o rest)
          rw [hlook] at this
          cases this
      · intro v hv; cases hv
    | some coin =>
      have hcv : coinValue view o = coin.value := by simp [coinValue, hlook]
      have hmr : MoneyRange coin.value = true := hview o coin hlook
      obtain ⟨hv0, hv1⟩ := moneyRange_iff.mp hmr
      simp only [checkInputsLoop, hlook]
      by_cases hcb : coin.isCoinBase = true ∧ spendHeight - coin.height < COINBASE_MATURITY
      · rw [if_pos (by simp [hcb.1, hcb.2])]
        constructor
        · constructor
          · rintro ⟨v, hv⟩; cases hv
          · rintro ⟨-, hmat, -⟩
            have := hmat o (List.mem_cons_self o rest) coin hlook hcb.1
            omega
        · intro v hv; cases hv
      · have hcbf : (coin.isCoinBase && decide (spendHeight - coin.height < COINBASE_MATURITY)) = false := by
          rcases Decidable.not_and_iff_or_not.mp hcb with h | h <;> simp [h]
        rw [hcbf, if_neg Bool.false_ne_true]
        by_cases hsum : MoneyRange (acc + coin.value) = true
        · obtain ⟨hs0, hs1⟩ := moneyRange_iff.mp hsum
          rw [if_neg (by simp [hmr, hsum])]
          obtain ⟨ihiff, ihval⟩ := ih (acc + coin.value) hs0 hs1
          constructor
          · rw [ihiff]
            constructor
            · rintro ⟨hpres, hmat, hle⟩
              refine ⟨?_, ?_, ?_⟩
              · intro x hx
                rcases List.mem_cons.mp hx with rfl | hx'
                · rw [hlook]; rfl
                · exact hpres x hx'
              · intro x hx c hc hcbase
                rcases List.mem_cons.mp hx with rfl | hx'
                · rw [hlook] at hc; cases hc
                  rcases Decidable.not_and_iff_or_not.mp hcb with h | h
                  · exact absurd hcbase h
                  · omega
                · exact hmat x hx' c hc hcbase
              · simp only [List.map_cons, List.sum_cons, hcv]
                linarith
            · rintro ⟨hpres, hmat, hle⟩
              refine ⟨?_, ?_, ?_⟩
              · intro x hx; exact hpres x (List.mem_cons_of_mem o hx)
              · intro x hx c hc hcbase
                exact hmat x (List.mem_cons_of_mem o hx) c hc hcbase
              · simp only [List.map_cons, List.sum_cons, hcv] at hle
                linarith
          · intro v hv
            have := ihval v hv
            simp only [List.map_cons, List.sum_cons, hcv]
            linarith
        · rw [if_pos (by simp [Bool.not_eq_true] at hsum ⊢; simp [hsum])]
          have hbig : MAX_MONEY < acc + coin.value := by
            rcases (not_iff_not.mpr moneyRange_iff).mp
              (by simpa using hsum) with h
            rcases Decidable.not_and_iff_or_not.mp h with h' | h' <;> omega
          constructor
          · constructor
            · rintro ⟨v, hv⟩; cases hv
            · rintro ⟨-, -, hle⟩
              have hrest : 0 ≤ (rest.map (coinValue view)).sum :=
                sum_coinValue_nonneg hview rest
              simp only [List.map_cons, List.sum_cons, hcv] at hle
              linarith
          · intro v hv; cases hv

/-- The coinbase-maturity boundary outpoint, view and transaction of the tests
`coinbase_maturity_exactly_100` and `coinbase_maturity_one_short`: a coinbase
of 50 COIN created at height 100 and spent unchanged. -/
def maturityView : UtxoView :=
  [(⟨1, 0⟩, ⟨50 * COIN, 100, true⟩)]

/-- The boundary spending transaction: one input at the coinbase outpoint,
one output returning the full 50 COIN. -/
def maturityTx : Tx :=
  { vin := [⟨1, 0⟩], vout := [50 * COIN] }

/-- C2: with a well-formed view and outputs in money range, `CheckTxInputs`
returns `Ok` exactly when every prevout is present, every coinbase input has
`spend_height - coin.height ≥ 100`, and the input sum lies in
`[output sum, MAX_MONEY]`; on success the fee is exactly the input sum minus
the output sum.  At the boundary, a coinbase spent at depth exactly 100 is
accepted and at depth 99 is rejected as premature. -/
theorem check_tx_inputs_spec (tx : Tx) (view : UtxoView) (spendHeight : Int)
    (hview : ViewWellFormed view)
    (hout : ∀ v ∈ tx.vout, MoneyRange v = true) :
    ((∃ fee, CheckTxInputs tx view spendHeight = .ok fee) ↔
      (∀ o ∈ tx.vin, (lookupCoin view o).isSome) ∧
      (∀ o ∈ tx.vin, ∀ c, lookupCoin view o = some c → c.isCoinBase = true →
        COINBASE_MATURITY ≤ spendHeight - c.height) ∧
      txValueOut tx ≤ txValueIn view tx ∧ txValueIn view tx ≤ MAX_MONEY) ∧
    (∀ fee, CheckTxInputs tx view spendHeight = .ok fee →
      fee = txValueIn view tx - txValueOut tx) ∧
    CheckTxInputs maturityTx maturityView 200 = .ok 0 ∧
    CheckTxInputs maturityTx maturityView 199 = .error .prematureSpend := by
  have hout0 : 0 ≤ txValueOut tx := by
    refine List.sum_nonneg ?_
    intro x hx
    exact (moneyRange_iff.mp (hout x hx)).1
  obtain ⟨hiff, hval⟩ :=
    checkInputsLoop_spec view spendHeight hview tx.vin 0 (le_refl 0) (by unfold MAX_MONEY COIN; omega)
  refine ⟨?_, ?_, by rfl, by rfl⟩
  · constructor
    · rintro ⟨fee, hfee⟩
      unfold CheckTxInputs at hfee
      cases hloop : checkInputsLoop view spendHeight tx.vin 0 with
      | error e => rw [hloop] at hfee; cases hfee
      | ok valueIn =>
        simp only [hloop] at hfee
        have hvi : valueIn = txValueIn view tx := by
          have := hval valueIn hloop
          unfold txValueIn; omega
        have hok := hiff.mp ⟨valueIn, hloop⟩
        by_cases hlt : valueIn < txValueOut tx
        · rw [if_pos hlt] at hfee; cases hfee
        · refine ⟨hok.1, hok.2.1, by omega, by have := hok.2.2; unfold txValueIn; omega⟩
    · rintro ⟨hpres, hmat, hge, hle⟩
      have hok : ∃ v, checkInputsLoop view spendHeight tx.vin 0 = .ok v := by
        refine hiff.mpr ⟨hpres, hmat, ?_⟩
        unfold txValueIn at hle; omega
      obtain ⟨valueIn, hloop⟩ := hok
      have hvi : valueIn = txValueIn view tx := by
        have := hval valueIn hloop
        unfold txValueIn; omega
      have hfr : MoneyRange (valueIn - txValueOut tx) = true :=
        moneyRange_iff.mpr ⟨by omega, by omega⟩
      refine ⟨valueIn - txValueOut tx, ?_⟩
      unfold CheckTxInputs
      simp only [hloop]
      rw [if_neg (by omega), if_neg (by simp [hfr])]
  · intro fee hfee
    unfold CheckTxInputs at hfee
    cases hloop : checkInputsLoop view spendHeight tx.vin 0 with
    | error e => rw [hloop] at hfee; cases hfee
    | ok valueIn =>
      simp only [hloop] at hfee
      have hvi : valueIn = txValueIn view tx := by
        have := hval valueIn hloop
        unfold txValueIn; omega
      by_cases hlt : valueIn < txValueOut tx
      · rw [if_pos hlt] at hfee; cases hfee
      · rw [if_neg hlt] at hfee
        by_cases hfr : MoneyRange (valueIn - txValueOut tx) = true
        · rw [if_neg (by simp [hfr])] at hfee
          cases hfee
          omega
        · rw [if_pos (by simp [Bool.not_eq_true] at hfr ⊢; simp [hfr])] at hfee
          cases hfee

/-- The view of the fee-computation scenario: one non-coinbase coin worth
10 COIN created at height 100. -/
def feeView : UtxoView :=
  [(⟨1, 0⟩, ⟨10 * COIN, 100, false⟩)]

/-- The fee-computation transaction: spends the 10 COIN coin into a
9 COIN output, leaving a fee of 1 COIN. -/
def feeTx : Tx :=
  { vin := [⟨1, 0⟩], vout := [9 * COIN] }

lemma viewWF_singleton (p : COutPoint) (coin : Coin)
    (h : MoneyRange coin.value = true) : ViewWellFormed [(p, coin)] := by
  intro o c hc
  unfold lookupCoin at hc
  by_cases hpo : p = o
  · simp [List.find?, hpo] at hc
    rw [← hc]
    exact h
  · simp [List.find?, hpo] at hc

/-- C2 witness: the input-checker theorem applied to the concrete
fee-computation scenario (10 COIN in, 9 COIN out, fee exactly 1 COIN). -/
theorem check_tx_inputs_spec_witness :
    CheckTxInputs feeTx feeView 200 = .ok (1 * COIN) ∧
    (1 * COIN : Int) = txValueIn feeView feeTx - txValueOut feeTx := by
  have h := check_tx_inputs_spec feeTx feeView 200
    (viewWF_singleton ⟨1, 0⟩ ⟨10 * COIN, 100, false⟩ (by decide)) (by decide)
  have hfee : CheckTxInputs feeTx feeView 200 = .ok (1 * COIN) := by rfl
  exact ⟨hfee, h.2.1 (1 * COIN) hfee⟩

/-- Priority levels for context acquisition, from `AcquisitionPriority` in
`src/crypto/randomx_pool.h`. -/
inductive AcquisitionPriority where
  | NORMAL
  | HIGH
  | CONSENSUS_CRITICAL
deriving DecidableEq, Repr

/-- `RandomXContextPool::ACQUIRE_TIMEOUT` (`src/crypto/randomx_pool.h:66`):
30 seconds, for NORMAL priority. -/
def ACQUIRE_TIMEOUT : Nat := 30

/-- `RandomXContextPool::HIGH_PRIORITY_TIMEOUT` (`src/crypto/randomx_pool.h:69`):
120 seconds, for HIGH priority. -/
def HIGH_PRIORITY_TIMEOUT : Nat := 120

/-- Modelled from the spec: `RandomXContextPool::GetTimeoutForPriority`
(declared in `src/crypto/randomx_pool.h:205`, implementation not among the
provided sources).  Spec section 4.4: `timeout(NORMAL) = 30 s`,
`timeout(HIGH) = 120 s`, consensus-critical waits are unbounded (`none`). -/
def GetTimeoutForPriority : AcquisitionPriority → Option Nat
  | .NORMAL => some ACQUIRE_TIMEOUT
  | .HIGH => some HIGH_PRIORITY_TIMEOUT
  | .CONSENSUS_CRITICAL => none

/-- A pool guard handle (`RandomXContextPool::ContextGuard`), recording the
key its context was initialized with. -/
structure ContextGuard where
  key : Nat
deriving DecidableEq, Repr

/-- The outcome the environment presents to one iteration of the acquisition
loop: the scan finds or materializes a usable slot, or the wait on the
condition variable is signalled (spurious or release wake), or a bounded
wait elapses. -/
inductive AcquireEvent where
  | slotAvailable
  | waitSignalled
  | waitTimedOut
deriving DecidableEq, Repr

/-- Modelled from the spec: the acquisition loop of
`RandomXContextPool::Acquire` (declared in `src/crypto/randomx_pool.h:129`,
implementation not among the provided sources; spec section 4.4 steps 2.b-2.e).
The loop runs against a finite trace of environment events: `none` means the
acquisition has not completed yet (trace exhausted while waiting),
`some (some g)` is a successful acquisition, `some none` is a timeout return.
A timeout return is possible only from a bounded wait; for
`CONSENSUS_CRITICAL` the wait is untimed, so elapsing time never completes
the wait and the loop keeps waiting. -/
def Acquire (key : Nat) (priority : AcquisitionPriority) :
    List AcquireEvent → Option (Option ContextGuard)
  | [] => none
  | ev :: rest =>
    match ev with
    | .slotAvailable => some (some ⟨key⟩)
    | .waitSignalled => Acquire key priority rest
    | .waitTimedOut =>
      match GetTimeoutForPriority priority with
      | some _ => some none
      | none => Acquire key priority rest

/-- C4: every completed `CONSENSUS_CRITICAL` acquisition returns a guard for
the requested key (never a timeout); a completed NORMAL or HIGH acquisition
returns `none` only when a bounded wait actually elapsed on the trace; the
bounded timeouts are 30 s for NORMAL and 120 s for HIGH. -/
theorem pool_acquire_priority_spec (key : Nat) (trace : List AcquireEvent) :
    (∀ r, Acquire key .CONSENSUS_CRITICAL trace = some r →
      r = some { key := key }) ∧
    (∀ p r, Acquire key p trace = some r → r = none →
      p ≠ .CONSENSUS_CRITICAL ∧ AcquireEvent.waitTimedOut ∈ trace) ∧
    GetTimeoutForPriority .NORMAL = some 30 ∧
    GetTimeoutForPriority .HIGH = some 120 := by
  refine ⟨?_, ?_, rfl, rfl⟩
  · induction trace with
    | nil => intro r hr; cases hr
    | cons ev rest ih =>
      intro r hr
      cases ev with
      | slotAvailable =>
        simp only [Acquire] at hr
        cases hr
        rfl
      | waitSignalled => exact ih r hr
      | waitTimedOut => exact ih r hr
  · induction trace with
    | nil => intro p r hr; cases hr
    | cons ev rest ih =>
      intro p r hr hnone
      cases ev with
      | slotAvailable =>
        simp only [Acquire] at hr
        cases hr
        cases hnone
      | waitSignalled =>
        obtain ⟨hp, hmem⟩ := ih p r hr hnone
        exact ⟨hp, List.mem_cons_of_mem _ hmem⟩
      | waitTimedOut =>
        cases p with
        | CONSENSUS_CRITICAL =>
          obtain ⟨hp, _⟩ := ih _ r hr hnone
          exact absurd rfl hp
        | NORMAL => exact ⟨by simp, List.mem_cons_self _ _⟩
        | HIGH => exact ⟨by simp, List.mem_cons_self _ _⟩

/-- C4 witness: the pool theorem applied to a one-event trace in which a
NORMAL-priority wait times out. -/
theorem pool_acquire_priority_spec_witness :
    AcquisitionPriority.NORMAL ≠ AcquisitionPriority.CONSENSUS_CRITICAL ∧
    AcquireEvent.waitTimedOut ∈ [AcquireEvent.waitTimedOut] :=
  (pool_acquire_priority_spec 7 [AcquireEvent.waitTimedOut]).2.1
    AcquisitionPriority.NORMAL none rfl rfl

/-- Modelled from the spec: the retarget timespan clamp of
`CalculateNextWorkRequired` (`pow.cpp` is not among the provided sources;
spec section 4.2): the effective elapsed time is clamped to
`[target_timespan/4, target_timespan*4]`, raising first and capping second
as in the standard implementation. -/
def clampTimespan (actualTimespan T : Int) : Int :=
  min (T * 4) (max (Int.tdiv T 4) actualTimespan)

/-- Modelled from the spec: `CalculateNextWorkRequired` (`pow.cpp` is not
among the provided sources; spec section 4.2):
`new_target = min(pow_limit, old_target * clamped_time / target_timespan)`
with `pow_limit = active_limit(height)`; the identity on the target when
`no_retargeting` is set.  Targets are 256-bit unsigned integers, modelled as
`Nat`. -/
def CalculateNextWorkRequired (P : Params) (height : Int) (oldTarget : Nat)
    (actualTimespan : Int) : Nat :=
  if P.fPowNoRetargeting then oldTarget
  else
    min (P.GetActivePowLimit height)
      (oldTarget * (clampTimespan actualTimespan P.nPowTargetTimespan).toNat
        / P.nPowTargetTimespan.toNat)

/-- C6: for every retarget step whose old target respects the active limit
(with a positive timespan divisible by 4, as on all networks), the new
target satisfies `old/4 ≤ new ≤ old*4` and never exceeds the active proof-of-
work limit for the height being retargeted to. -/
theorem retarget_4x_clamp (P : Params) (height : Int) (oldTarget : Nat)
    (actualTimespan : Int) (hT : 0 < P.nPowTargetTimespan)
    (hT4 : (4 : Int) ∣ P.nPowTargetTimespan)
    (hold : oldTarget ≤ P.GetActivePowLimit height) :
    CalculateNextWorkRequired P height oldTarget actualTimespan ≤
      P.GetActivePowLimit height ∧
    oldTarget / 4 ≤ CalculateNextWorkRequired P height oldTarget actualTimespan ∧
    CalculateNextWorkRequired P height oldTarget actualTimespan ≤ oldTarget * 4 := by
  unfold CalculateNextWorkRequired
  by_cases hnr : P.fPowNoRetargeting
  · rw [if_pos hnr]
    refine ⟨hold, Nat.div_le_self oldTarget 4, ?_⟩
    calc oldTarget = oldTarget * 1 := (Nat.mul_one oldTarget).symm
      _ ≤ oldTarget * 4 := Nat.mul_le_mul_left oldTarget (by omega)
  · rw [if_neg hnr]
    obtain ⟨m, hm⟩ := Int.eq_ofNat_of_zero_le hT.le
    have hm0 : 0 < m := by exact_mod_cast hm ▸ hT
    have hm4 : 4 ∣ m := by
      have : ((4 : Nat) : Int) ∣ (m : Int) := by
        rw [← hm]; exact_mod_cast hT4
      exact_mod_cast this
    have hm4' : 4 ≤ m := Nat.le_of_dvd hm0 hm4
    set c := (clampTimespan actualTimespan P.nPowTargetTimespan).toNat with hc
    -- Bounds on the clamped timespan.
    have hclow : (m / 4 : Nat) ≤ c := by
      have h1 : ((m / 4 : Nat) : Int) ≤ clampTimespan actualTimespan P.nPowTargetTimespan := by
        unfold clampTimespan
        rw [hm]
        have htd : Int.tdiv (m : Int) 4 = ((m / 4 : Nat) : Int) := rfl
        refine le_min ?_ ?_
        · have : (m / 4 : Nat) ≤ m * 4 := by
            calc (m / 4 : Nat) ≤ m := Nat.div_le_self m 4
              _ ≤ m * 4 := Nat.le_mul_of_pos_right m (by omega)
          exact_mod_cast this
        · rw [← htd]; exact le_max_left _ _
      calc (m / 4 : Nat) = (((m / 4 : Nat) : Int)).toNat := rfl
        _ ≤ c := Int.toNat_le_toNat h1
    have hchigh : c ≤ 4 * m := by
      have h1 : clampTimespan actualTimespan P.nPowTargetTimespan ≤ ((4 * m : Nat) : Int) := by
        unfold clampTimespan
        rw [hm]
        calc min ((m : Int) * 4) (max (Int.tdiv (m : Int) 4) actualTimespan)
            ≤ (m : Int) * 4 := min_le_left _ _
          _ = ((4 * m : Nat) : Int) := by push_cast; ring
      calc c ≤ (((4 * m : Nat) : Int)).toNat := Int.toNat_le_toNat h1
        _ = 4 * m := rfl
    have htn : P.nPowTargetTimespan.toNat = m := by rw [hm]; rfl
    rw [htn]
    refine ⟨min_le_left _ _, ?_, ?_⟩
    · refine le_min ?_ ?_
      · exact le_trans (Nat.div_le_self oldTarget 4) hold
      · -- oldTarget / 4 = oldTarget * (m / 4) / m ≤ oldTarget * c / m
        have hmkey : oldTarget * (m / 4) / m = oldTarget / 4 := by
          obtain ⟨k, hk⟩ := hm4
          have hk0 : 0 < k := by omega
          subst hk
          rw [Nat.mul_div_cancel_left k (by omega)]
          exact Nat.mul_div_mul_right oldTarget 4 hk0
        rw [← hmkey]
        exact Nat.div_le_div_right (Nat.mul_le_mul_left oldTarget hclow)
    · calc min (P.GetActivePowLimit height) (oldTarget * c / m)
          ≤ oldTarget * c / m := min_le_right _ _
        _ ≤ oldTarget * (4 * m) / m := Nat.div_le_div_right (Nat.mul_le_mul_left oldTarget hchigh)
        _ = oldTarget * 4 * m / m := by ring_nf
        _ = oldTarget * 4 := Nat.mul_div_cancel _ hm0

/-- C6 witness: the retarget theorem at a concrete step (timespan 1209600 s,
blocks four times too fast, old target at the limit). -/
theorem retarget_4x_clamp_witness :
    CalculateNextWorkRequired emergencyParams 0 1000000 302400 ≤
      emergencyParams.GetActivePowLimit 0 ∧
    (1000000 : Nat) / 4 ≤ CalculateNextWorkRequired emergencyParams 0 1000000 302400 :=
  have h := retarget_4x_clamp emergencyParams 0 1000000 302400 (by decide)
    (by decide) (by decide)
  ⟨h.1, h.2.1⟩

/-- Truncation to a 32-bit word. -/
def w32 (x : Nat) : Nat := x % 4294967296

/-- Right rotation of a 32-bit word. -/
def rotr32 (x n : Nat) : Nat := w32 ((x >>> n) ||| (x <<< (32 - n)))

/-- The SHA-256 round constants (FIPS 180-4), as used by the `CSHA256`
fallback hasher. -/
def sha256K : List Nat :=
  [1116352408, 1899447441, 3049323471, 3921009573,
   961987163, 1508970993, 2453635748, 2870763221,
   3624381080, 310598401, 607225278, 1426881987,
   1925078388, 2162078206, 2614888103, 3248222580,
   3835390401, 4022224774, 264347078, 604807628,
   770255983, 1249150122, 1555081692, 1996064986,
   2554220882, 2821834349, 2952996808, 3210313671,
   3336571891, 3584528711, 113926993, 338241895,
   666307205, 773529912, 1294757372, 1396182291,
   1695183700, 1986661051, 2177026350, 2456956037,
   2730485921, 2820302411, 3259730800, 3345764771,
   3516065817, 3600352804, 4094571909, 275423344,
   430227734, 506948616, 659060556, 883997877,
   958139571, 1322822218, 1537002063, 1747873779,
   1955562222, 2024104815, 2227730452, 2361852424,
   2428436474, 2756734187, 3204031479, 3329325298]

/-- The SHA-256 initial hash state (FIPS 180-4). -/
def sha256H0 : List Nat :=
  [1779033703, 3144134277, 1013904242, 2773480762,
   1359893119, 2600822924, 528734635, 1541459225]

/-- Group a byte list into big-endian 32-bit words. -/
def bytesToWordsBE : List Nat → List Nat
  | a :: b :: c :: d :: rest => (a * 16777216 + b * 65536 + c * 256 + d) :: bytesToWordsBE rest
  | _ => []

/-- The four big-endian bytes of a 32-bit word. -/
def wordBytesBE (w : Nat) : List Nat :=
  [w / 16777216 % 256, w / 65536 % 256, w / 256 % 256, w % 256]

/-- Serialize 32-bit words as big-endian bytes. -/
def wordsToBytesBE (ws : List Nat) : List Nat :=
  ws.foldr (fun w acc => wordBytesBE w ++ acc) []

def smallSigma0 (x : Nat) : Nat := rotr32 x 7 ^^^ rotr32 x 18 ^^^ (x >>> 3)

def smallSigma1 (x : Nat) : Nat := rotr32 x 17 ^^^ rotr32 x 19 ^^^ (x >>> 10)

def bigSigma0 (x : Nat) : Nat := rotr32 x 2 ^^^ rotr32 x 13 ^^^ rotr32 x 22

def bigSigma1 (x : Nat) : Nat := rotr32 x 6 ^^^ rotr32 x 11 ^^^ rotr32 x 25

def chFn (x y z : Nat) : Nat := (x &&& y) ^^^ ((x ^^^ 4294967295) &&& z)

def majFn (x y z : Nat) : Nat := (x &&& y) ^^^ (x &&& z) ^^^ (y &&& z)

/-- Extend a 16-word block to the 64-word SHA-256 message schedule. -/
def extendSchedule (w : List Nat) : Nat → List Nat
  | 0 => w
  | n + 1 =>
    let len := w.length
    extendSchedule
      (w ++ [w32 (smallSigma1 (w.getD (len - 2) 0) + w.getD (len - 7) 0 +
        smallSigma0 (w.getD (len - 15) 0) + w.getD (len - 16) 0)]) n

/-- The eight SHA-256 working variables. -/
structure Sha256State where
  a : Nat
  b : Nat
  c : Nat
  d : Nat
  e : Nat
  f : Nat
  g : Nat
  h : Nat

/-- One SHA-256 compression round. -/
def sha256Round (s : Sha256State) (kw : Nat × Nat) : Sha256State :=
  let t1 := w32 (s.h + bigSigma1 s.e + chFn s.e s.f s.g + kw.1 + kw.2)
  let t2 := w32 (bigSigma0 s.a + majFn s.a s.b s.c)
  ⟨w32 (t1 + t2), s.a, s.b, s.c, w32 (s.d + t1), s.e, s.f, s.g⟩

/-- Compress one 64-byte block into the running hash state. -/
def processBlock (hs : List Nat) (block : List Nat) : List Nat :=
  let w := extendSchedule (bytesToWordsBE block) 48
  let s0 : Sha256State :=
    ⟨hs.getD 0 0, hs.getD 1 0, hs.getD 2 0, hs.getD 3 0,
     hs.getD 4 0, hs.getD 5 0, hs.getD 6 0, hs.getD 7 0⟩
  let s := (List.zip sha256K w).foldl sha256Round s0
  List.zipWith (fun x y => w32 (x + y)) hs [s.a, s.b, s.c, s.d, s.e, s.f, s.g, s.h]

/-- The eight big-endian bytes of the 64-bit message bit length. -/
def lenBytesBE (n : Nat) : List Nat :=
  [n / 72057594037927936 % 256, n / 281474976710656 % 256, n / 1099511627776 % 256,
   n / 4294967296 % 256, n / 16777216 % 256, n / 65536 % 256, n / 256 % 256, n % 256]

/-- SHA-256 padding: append `0x80`, zeros to 56 mod 64, and the bit length. -/
def padMessage (msg : List Nat) : List Nat :=
  msg ++ 128 :: List.replicate ((119 - msg.length % 64) % 64) 0 ++ lenBytesBE (8 * msg.length)

/-- Split into 64-byte chunks; the fuel argument (an upper bound on the number
of chunks) keeps the recursion structural. -/
def chunks64Go : Nat → List Nat → List (List Nat)
  | _, [] => []
  | 0, _ => []
  | fuel + 1, x :: xs => ((x :: xs).take 64) :: chunks64Go fuel ((x :: xs).drop 64)

/-- Split a byte list into 64-byte chunks. -/
def chunks64 (l : List Nat) : List (List Nat) := chunks64Go l.length l

/-- SHA-256 over a byte list (FIPS 180-4), the behaviour of the `CSHA256`
hasher used by the Argon2 fallback path. -/
def sha256 (msg : List Nat) : List Nat :=
  wordsToBytesBE ((chunks64 (padMessage msg)).foldl processBlock sha256H0)

/-- FIPS 180-4 test vector: hash of the empty message. -/
lemma sha256_empty_vector : sha256 [] =
    [227, 176, 196, 66, 152, 252, 28, 20,
     154, 251, 244, 200, 153, 111, 185, 36,
     39, 174, 65, 228, 100, 155, 147, 76,
     164, 149, 153, 27, 120, 82, 184, 85] := by
  decide

/-- FIPS 180-4 test vector: hash of the three-byte message `abc`. -/
lemma sha256_abc_vector : sha256 [0x61, 0x62, 0x63] =
    [186, 120, 22, 191, 143, 1, 207, 234,
     65, 65, 64, 222, 93, 174, 34, 35,
     176, 3, 97, 163, 150, 23, 122, 156,
     180, 16, 255, 97, 242, 0, 21, 173] := by
  decide

/-- The low `k` bytes of a natural number, least-significant first (the memory
layout of a little-endian unsigned integer). -/
def leBytes : Nat → Nat → List Nat
  | 0, _ => []
  | k + 1, x => (x % 256) :: leBytes k (x / 256)

/-- The Argon2 emergency-fallback hashing context (`class Argon2Context` in
`src/crypto/argon2_context.h`), with its consensus-critical parameters. -/
structure Argon2Context where
  m_initialized : Bool
  m_memory_cost : Nat
  m_time_cost : Nat
  m_parallelism : Nat
deriving DecidableEq, Repr

/-- Error kinds thrown by `Argon2Context`: parameter-validation errors from
the constructor and runtime errors from `CalculateHash`. -/
inductive Argon2Error where
  | invalidMemoryCost
  | invalidTimeCost
  | invalidParallelism
  | notInitialized
  | inputTooLarge
deriving DecidableEq, Repr

/-- The constructor `Argon2Context::Argon2Context`
(`src/crypto/argon2_context.cpp:29`): rejects `memory_cost < 8`,
`time_cost < 1` and `parallelism < 1` (in this order) with an
`invalid_argument` error; otherwise stores the parameters and sets
`m_initialized`. -/
def Argon2Context.construct (memory_cost time_cost parallelism : Nat) :
    Except Argon2Error Argon2Context :=
  if memory_cost < 8 then .error .invalidMemoryCost
  else if time_cost < 1 then .error .invalidTimeCost
  else if parallelism < 1 then .error .invalidParallelism
  else .ok { m_initialized := true, m_memory_cost := memory_cost,
             m_time_cost := time_cost, m_parallelism := parallelism }

/-- `Argon2Context::IsInitialized` (`src/crypto/argon2_context.cpp:132`). -/
def Argon2Context.IsInitialized (ctx : Argon2Context) : Bool := ctx.m_initialized

/-- `ARGON2_MAX_INPUT_SIZE` (`src/crypto/argon2_context.cpp:71`): 4 MiB. -/
def ARGON2_MAX_INPUT_SIZE : Nat := 4194304

/-- The byte string fed to the fallback hasher by
`Argon2Context::CalculateHash` (`src/crypto/argon2_context.cpp:104`): the
input data, the 32 salt bytes (a little-endian `uint256`), and the four
little-endian bytes of `m_memory_cost` and of `m_time_cost`.
`m_parallelism` is not written to the hasher. -/
def fallbackMessage (data : List Nat) (salt mc tc : Nat) : List Nat :=
  data ++ leBytes 32 salt ++ leBytes 4 mc ++ leBytes 4 tc

/-- `Argon2Context::CalculateHash` (`src/crypto/argon2_context.cpp:61`),
non-libsodium path: errors when uninitialized or when the input exceeds
4 MiB, else the SHA-256 fallback digest of `fallbackMessage`.  The salt is a
`uint256`, modelled as a `Nat` below `2^256`. -/
def Argon2Context.CalculateHash (ctx : Argon2Context) (data : List Nat)
    (salt : Nat) : Except Argon2Error (List Nat) :=
  if !ctx.m_initialized then .error .notInitialized
  else if data.length > ARGON2_MAX_INPUT_SIZE then .error .inputTooLarge
  else .ok (sha256 (fallbackMessage data salt ctx.m_memory_cost ctx.m_time_cost))

lemma leBytes_length (k x : Nat) : (leBytes k x).length = k := by
  induction k generalizing x with
  | zero => rfl
  | succ k ih => simp [leBytes, ih]

lemma leBytes_inj (k : Nat) : ∀ x y : Nat, x < 256 ^ k → y < 256 ^ k →
    leBytes k x = leBytes k y → x = y := by
  induction k with
  | zero =>
    intro x y hx hy _
    simp only [pow_zero, Nat.lt_one_iff] at hx hy
    omega
  | succ k ih =>
    intro x y hx hy heq
    simp only [leBytes, List.cons.injEq] at heq
    have hx' : x / 256 < 256 ^ k := by
      rw [Nat.div_lt_iff_lt_mul (by omega)]
      calc x < 256 ^ (k + 1) := hx
        _ = 256 ^ k * 256 := by ring
    have hy' : y / 256 < 256 ^ k := by
      rw [Nat.div_lt_iff_lt_mul (by omega)]
      calc y < 256 ^ (k + 1) := hy
        _ = 256 ^ k * 256 := by ring
    have := ih (x / 256) (y / 256) hx' hy' heq.2
    omega

lemma processBlock_length (hs block : List Nat) (h : hs.length = 8) :
    (processBlock hs block).length = 8 := by
  simp [processBlock, List.length_zipWith, h]

lemma foldl_processBlock_length (blocks : List (List Nat)) :
    ∀ hs : List Nat, hs.length = 8 → (blocks.foldl processBlock hs).length = 8 := by
  induction blocks with
  | nil => intro hs h; exact h
  | cons b rest ih =>
    intro hs h
    exact ih (processBlock hs b) (processBlock_length hs b h)

lemma wordsToBytesBE_length (ws : List Nat) :
    (wordsToBytesBE ws).length = 4 * ws.length := by
  induction ws with
  | nil => rfl
  | cons w rest ih =>
    show (wordBytesBE w ++ wordsToBytesBE rest).length = 4 * (w :: rest).length
    have h4 : (wordBytesBE w).length = 4 := rfl
    rw [List.length_append, ih, h4, List.length_cons]
    omega

lemma sha256_length (msg : List Nat) : (sha256 msg).length = 32 := by
  unfold sha256
  rw [wordsToBytesBE_length, foldl_processBlock_length _ sha256H0 (by rfl)]

/-- C8: `Argon2Context` construction succeeds exactly when `memory_cost ≥ 8`,
`time_cost ≥ 1` and `parallelism ≥ 1`; on success the context stores the
given parameters and reports itself initialized, and otherwise the error is
a parameter-validation error. -/
theorem argon2_construct_spec (memory_cost time_cost parallelism : Nat) :
    ((∃ ctx, Argon2Context.construct memory_cost time_cost parallelism = .ok ctx) ↔
      8 ≤ memory_cost ∧ 1 ≤ time_cost ∧ 1 ≤ parallelism) ∧
    (∀ ctx, Argon2Context.construct memory_cost time_cost parallelism = .ok ctx →
      ctx.IsInitialized = true ∧ ctx.m_memory_cost = memory_cost ∧
      ctx.m_time_cost = time_cost ∧ ctx.m_parallelism = parallelism) := by
  unfold Argon2Context.construct
  by_cases h1 : memory_cost < 8
  · rw [if_pos h1]
    constructor
    · constructor
      · rintro ⟨ctx, hc⟩; cases hc
      · rintro ⟨h, -, -⟩; omega
    · intro ctx hc; cases hc
  · rw [if_neg h1]
    by_cases h2 : time_cost < 1
    · rw [if_pos h2]
      constructor
      · constructor
        · rintro ⟨ctx, hc⟩; cases hc
        · rintro ⟨-, h, -⟩; omega
      · intro ctx hc; cases hc
    · rw [if_neg h2]
      by_cases h3 : parallelism < 1
      · rw [if_pos h3]
        constructor
        · constructor
          · rintro ⟨ctx, hc⟩; cases hc
          · rintro ⟨-, -, h⟩; omega
        · intro ctx hc; cases hc
      · rw [if_neg h3]
        constructor
        · constructor
          · intro _; omega
          · intro _; exact ⟨_, rfl⟩
        · intro ctx hc
          cases hc
          exact ⟨rfl, rfl, rfl, rfl⟩

/-- C8 witness: the constructor theorem at the test parameters
`(1 << 16, 1, 1)`: construction succeeds and the context is initialized. -/
theorem argon2_construct_spec_witness :
    (∃ ctx, Argon2Context.construct 65536 1 1 = .ok ctx) ∧
    (∀ ctx, Argon2Context.construct 65536 1 1 = .ok ctx →
      ctx.IsInitialized = true) := by
  have h := argon2_construct_spec 65536 1 1
  exact ⟨h.1.mpr (by omega), fun ctx hc => (h.2 ctx hc).1⟩

/-- C7 counterexample: two contexts identical except for `parallelism`
(1 versus 2) produce the same digest for the same data and salt, because
`CalculateHash` never feeds `m_parallelism` to the hasher — so changing the
parallelism parameter does not change the digest, contrary to the claim. -/
theorem argon2_parallelism_ignored_cex :
    Argon2Context.construct 65536 1 1 =
      .ok { m_initialized := true, m_memory_cost := 65536, m_time_cost := 1, m_parallelism := 1 } ∧
    Argon2Context.construct 65536 1 2 =
      .ok { m_initialized := true, m_memory_cost := 65536, m_time_cost := 1, m_parallelism := 2 } ∧
    Argon2Context.CalculateHash
      { m_initialized := true, m_memory_cost := 65536, m_time_cost := 1, m_parallelism := 1 }
      [1, 2, 3, 4] 1 =
    Argon2Context.CalculateHash
      { m_initialized := true, m_memory_cost := 65536, m_time_cost := 1, m_parallelism := 2 }
      [1, 2, 3, 4] 1 :=
  ⟨rfl, rfl, rfl⟩

/-- C7 (amended): `CalculateHash` is deterministic — its digest depends only
on `(data, salt, memory_cost, time_cost)`, and in particular not on
`parallelism`; a successful digest is exactly 32 bytes; and the byte string
fed to the fallback hasher is injective in `(data, salt, memory_cost,
time_cost)`, so changing any byte of the data or salt or either of those two
parameters changes the hasher input (while changing `parallelism` alone
never changes the digest). -/
theorem argon2_hash_determinism (c1 c2 : Argon2Context) (data : List Nat)
    (salt : Nat) (hini : c1.m_initialized = c2.m_initialized)
    (hmem : c1.m_memory_cost = c2.m_memory_cost)
    (htime : c1.m_time_cost = c2.m_time_cost) :
    c1.CalculateHash data salt = c2.CalculateHash data salt ∧
    (∀ digest, c1.CalculateHash data salt = .ok digest → digest.length = 32) ∧
    (∀ (d1 d2 : List Nat) (s1 s2 m1 m2 t1 t2 : Nat),
      s1 < 2 ^ 256 → s2 < 2 ^ 256 → m1 < 2 ^ 32 → m2 < 2 ^ 32 →
      t1 < 2 ^ 32 → t2 < 2 ^ 32 →
      fallbackMessage d1 s1 m1 t1 = fallbackMessage d2 s2 m2 t2 →
      d1 = d2 ∧ s1 = s2 ∧ m1 = m2 ∧ t1 = t2) := by
  refine ⟨?_, ?_, ?_⟩
  · cases c1
    cases c2
    simp only at hini hmem htime
    subst hini
    subst hmem
    subst htime
    rfl
  · intro digest hd
    unfold Argon2Context.CalculateHash at hd
    by_cases hi : (!c1.m_initialized) = true
    · rw [if_pos hi] at hd; cases hd
    · rw [if_neg hi] at hd
      by_cases hl : data.length > ARGON2_MAX_INPUT_SIZE
      · rw [if_pos hl] at hd; cases hd
      · rw [if_neg hl] at hd
        cases hd
        exact sha256_length _
  · intro d1 d2 s1 s2 m1 m2 t1 t2 hs1 hs2 hm1 hm2 ht1 ht2 heq
    have h256 : (256 : Nat) ^ 32 = 2 ^ 256 := by norm_num
    have h4 : (256 : Nat) ^ 4 = 2 ^ 32 := by norm_num
    unfold fallbackMessage at heq
    simp only [List.append_assoc] at heq
    have hlen : d1.length = d2.length := by
      have := congrArg List.length heq
      simp only [List.length_append, leBytes_length] at this
      omega
    obtain ⟨hd, hrest⟩ := List.append_inj heq hlen
    obtain ⟨hsalt, hrest2⟩ :=
      List.append_inj hrest (by rw [leBytes_length, leBytes_length])
    obtain ⟨hmc, htc⟩ :=
      List.append_inj hrest2 (by rw [leBytes_length, leBytes_length])
    refine ⟨hd, ?_, ?_, ?_⟩
    · exact leBytes_inj 32 s1 s2 (h256 ▸ hs1) (h256 ▸ hs2) hsalt
    · exact leBytes_inj 4 m1 m2 (h4 ▸ hm1) (h4 ▸ hm2) hmc
    · exact leBytes_inj 4 t1 t2 (h4 ▸ ht1) (h4 ▸ ht2) htc

/-- C7 witness: the determinism theorem applied to two concrete contexts that
differ only in `parallelism`, and the injectivity conjunct at a concrete
message. -/
theorem argon2_hash_determinism_witness :
    Argon2Context.CalculateHash
      { m_initialized := true, m_memory_cost := 64, m_time_cost := 2, m_parallelism := 1 }
      [5, 6] 9 =
    Argon2Context.CalculateHash
      { m_initialized := true, m_memory_cost := 64, m_time_cost := 2, m_parallelism := 4 }
      [5, 6] 9 :=
  (argon2_hash_determinism
    { m_initialized := true, m_memory_cost := 64, m_time_cost := 2, m_parallelism := 1 }
    { m_initialized := true, m_memory_cost := 64, m_time_cost := 2, m_parallelism := 4 }
    [5, 6] 9 rfl rfl rfl).1

end OpenSY
